import Mathlib

/-!
# Verified model of the verk-employee-management time-balance engine

Shallow embedding of the pure calculation core of the repository:

* `source/database/calculations.py`  — daily actual/target/balance
* `source/services/time_calculation.py` — all-time balance, weekly and
  monthly summaries with carry-in/carry-out
* `source/services/vacation_calculation.py` — vacation balance and expiry
  warnings
* `source/core/holidays.py` — Easter and the German holiday table

Modelling conventions:

* Python `Decimal` values are rationals (`ℚ`); `Decimal.quantize("0.01",
  ROUND_HALF_UP)` is `quantize2` below (round half away from zero at two
  decimals, exactly Python's `ROUND_HALF_UP`).
* Calendar dates are proleptic-Gregorian ordinals (`Nat`), exactly
  Python's `date.toordinal()`; `date(1,1,1)` is ordinal 1, a Monday.
* Clock times are minutes since midnight (records carry minute
  precision).  `actual_hours` in the source combines the clock times with
  the *current* date via `datetime.combine(today, ...)`; the `today` value
  is kept as an explicit parameter so that independence from the wall
  clock is a provable statement rather than an assumption.
* In `actual_hours` the source converts `duration_seconds / 3600` through
  a binary float before re-reading it as a `Decimal`.  At minute
  granularity the exact value of `total_hours * 100` has fractional part
  in {0, 1/3, 2/3}, at distance ≥ 1/6 from the rounding boundary, while
  the float detour perturbs it by < 1e-12; the quantized result therefore
  coincides with the exact rational computation modelled here.
-/

namespace Verk

/-! ## Decimal rounding (`Decimal.quantize(Decimal("0.01"), ROUND_HALF_UP)`) -/

/-- Round a rational to the nearest integer, ties away from zero
(Python `ROUND_HALF_UP`).  Stated via `Rat.floor` and the numerator sign
so that it evaluates by kernel reduction; `roundHalfUp_def` below gives
the usual `⌊·⌋` characterization. -/
def roundHalfUp (q : ℚ) : ℤ :=
  if 0 ≤ q.num then (q + 1/2).floor else -((-q + 1/2).floor)

/-- Quantize to two decimal places, rounding half away from zero. -/
def quantize2 (q : ℚ) : ℚ :=
  (roundHalfUp (q * 100) : ℚ) / 100

/-- A rational representable with two decimal places (what a quantized
`Decimal` or a `Numeric(·, 2)` database column holds). -/
def isCent (q : ℚ) : Prop := ∃ n : ℤ, q = (n : ℚ) / 100

/-! ## Calendar (Python `datetime.date`, proleptic Gregorian ordinals) -/

/-- Gregorian leap-year rule. -/
def isLeap (y : Nat) : Bool :=
  (y % 4 == 0 && y % 100 != 0) || y % 400 == 0

/-- `calendar.monthrange(y, m)[1]`: number of days in a month. -/
def daysInMonth (y m : Nat) : Nat :=
  match m with
  | 2 => if isLeap y then 29 else 28
  | 4 => 30
  | 6 => 30
  | 9 => 30
  | 11 => 30
  | _ => 31

/-- Days in year `y` strictly before month `m`. -/
def daysBeforeMonth (y : Nat) : Nat → Nat
  | 0 => 0
  | 1 => 0
  | m + 1 => daysBeforeMonth y m + daysInMonth y m

/-- Days before January 1 of year `y` (proleptic Gregorian). -/
def daysBeforeYear (y : Nat) : Nat :=
  365 * (y - 1) + (y - 1) / 4 - (y - 1) / 100 + (y - 1) / 400

/-- Python `date(y, m, d).toordinal()`. -/
def toOrdinal (y m d : Nat) : Nat :=
  daysBeforeYear y + daysBeforeMonth y m + d

/-- Python `date.weekday()`: 0 = Monday .. 6 = Sunday.  Ordinal 1
(January 1 of year 1) is a Monday. -/
def weekday (o : Nat) : Nat := (o + 6) % 7

/-- CPython `date.fromordinal` (`_ord2ymd`): ordinal back to
(year, month, day). -/
def ord2ymd (n : Nat) : Nat × Nat × Nat :=
  let n0 := n - 1
  let n400 := n0 / 146097
  let r400 := n0 % 146097
  let n100 := r400 / 36524
  let r100 := r400 % 36524
  let n4 := r100 / 1461
  let r4 := r100 % 1461
  let n1 := r4 / 365
  let rem := r4 % 365
  let year := n400 * 400 + n100 * 100 + n4 * 4 + n1 + 1
  if n1 = 4 ∨ n100 = 4 then (year - 1, 12, 31)
  else
    let monthGuess := (rem + 50) >>> 5
    let month := if daysBeforeMonth year monthGuess > rem then monthGuess - 1 else monthGuess
    (year, month, rem - daysBeforeMonth year month + 1)

/-- Inclusive list of ordinals `a .. b`. -/
def dateList (a b : Nat) : List Nat := List.range' a (b + 1 - a)

/-! ## Data model (`source/database/enums.py`, `source/database/models.py`) -/

/-- `AbsenceType` enum. -/
inductive AbsenceType
  | none
  | vacation
  | sick
  | holiday
  | flex_time
deriving DecidableEq

/-- `RecordStatus` enum (draft → submitted lifecycle, owned by the CRUD
layer). -/
inductive RecordStatus
  | draft
  | submitted
deriving DecidableEq

/-- `TimeEntry` model: one day of work for one user.  `work_date` is an
ordinal; `start_time` / `end_time` are minutes since midnight. -/
structure TimeEntry where
  user_id : Nat
  work_date : Nat
  start_time : Option Nat
  end_time : Option Nat
  break_minutes : Nat
  absence_type : AbsenceType
  status : RecordStatus
deriving DecidableEq

/-- `UserSettings` model (the fields the calculation engine reads; the
presentation-only `schedule_json` is not consulted by any function modelled
here). -/
structure UserSettings where
  user_id : Nat
  weekly_target_hours : ℚ
  tracking_start_date : Option Nat
  initial_hours_offset : Option ℚ
  initial_vacation_days : Option ℚ
  annual_vacation_days : Option ℚ
  vacation_carryover_days : Option ℚ
  vacation_carryover_expires : Option Nat
deriving DecidableEq

/-! ## Daily calculations (`source/database/calculations.py`) -/

/-- `actual_hours(entry)`.  The source computes
`datetime.combine(today, end) - datetime.combine(today, start)` where
`today = datetime.today().date()`; the wall-clock date is the explicit
first argument here. -/
def actual_hours (today : ℤ) (e : TimeEntry) : ℚ :=
  match e.start_time, e.end_time with
  | some st, some et =>
      let start_dt : ℤ := today * 1440 + (st : ℤ)
      let end_dt : ℤ := today * 1440 + (et : ℤ)
      let duration_seconds : ℤ := (end_dt - start_dt) * 60
      let duration_hours : ℚ := (duration_seconds : ℚ) / 3600
      let break_hours : ℚ := (e.break_minutes : ℚ) / 60
      quantize2 (duration_hours - break_hours)
  | _, _ => 0

/-- `target_hours(entry, settings)`: weekend → 0; absence `HOLIDAY` → 0;
otherwise `weekly_target_hours / 5` quantized. -/
def target_hours (e : TimeEntry) (s : UserSettings) : ℚ :=
  if weekday e.work_date ≥ 5 then 0
  else if e.absence_type = AbsenceType.holiday then 0
  else quantize2 (s.weekly_target_hours / 5)

/-- `balance(entry, settings)`: `VACATION`/`SICK` are neutral (0.00);
everything else is `actual - target` quantized. -/
def balance (today : ℤ) (e : TimeEntry) (s : UserSettings) : ℚ :=
  if e.absence_type = AbsenceType.vacation ∨ e.absence_type = AbsenceType.sick then 0
  else quantize2 (actual_hours today e - target_hours e s)

/-! ## Summary value objects (`source/services/summaries.py`) -/

/-- `DaySummary` dataclass. -/
structure DaySummary where
  date : Nat
  actual_hours : ℚ
  target_hours : ℚ
  balance : ℚ
  absence_type : AbsenceType
  has_entry : Bool
deriving DecidableEq

/-- `WeeklySummary` dataclass. -/
structure WeeklySummary where
  week_start : Nat
  week_end : Nat
  days : List DaySummary
  total_actual : ℚ
  total_target : ℚ
  total_balance : ℚ
deriving DecidableEq

/-- `MonthlySummary` dataclass. -/
structure MonthlySummary where
  year : Nat
  month : Nat
  weeks : List WeeklySummary
  total_actual : ℚ
  total_target : ℚ
  period_balance : ℚ
  carryover_in : ℚ
  carryover_out : ℚ
deriving DecidableEq

/-! ## TimeCalculationService (`source/services/time_calculation.py`) -/

/-- The dict `{entry.work_date: entry}` built in `weekly_summary`, looked
up at date `d`: the *last* entry with that date wins, as in a Python dict
comprehension. -/
def lastEntryOn (entries : List TimeEntry) (d : Nat) : Option TimeEntry :=
  entries.foldl (fun acc e => if e.work_date = d then some e else acc) none

/-- One iteration of the day loop in `weekly_summary`: a `DaySummary` for
`current_date`, synthesizing a zero-actual day from the weekday target
rule when no entry exists. -/
def daySummaryFor (today : ℤ) (entries : List TimeEntry) (s : UserSettings)
    (current_date : Nat) : DaySummary :=
  match lastEntryOn entries current_date with
  | some e =>
      { date := current_date
        actual_hours := actual_hours today e
        target_hours := target_hours e s
        balance := balance today e s
        absence_type := e.absence_type
        has_entry := true }
  | none =>
      let target : ℚ :=
        if weekday current_date < 5 then quantize2 (s.weekly_target_hours / 5) else 0
      { date := current_date
        actual_hours := 0
        target_hours := target
        balance := 0 - target
        absence_type := AbsenceType.none
        has_entry := false }

/-- `TimeCalculationService.weekly_summary`. -/
def weekly_summary (today : ℤ) (entries : List TimeEntry) (s : UserSettings)
    (week_start : Nat) : WeeklySummary :=
  let days := (List.range 7).map fun i => daySummaryFor today entries s (week_start + i)
  { week_start := week_start
    week_end := week_start + 6
    days := days
    total_actual := quantize2 (days.map (·.actual_hours)).sum
    total_target := quantize2 (days.map (·.target_hours)).sum
    total_balance := quantize2 (days.map (·.balance)).sum }

/-- The two filter passes of `all_time_balance`: restrict to
`[tracking_start_date, target_date]`, either bound optional. -/
def atbFiltered (entries : List TimeEntry) (s : UserSettings)
    (target_date : Option Nat) : List TimeEntry :=
  let filtered :=
    match s.tracking_start_date with
    | some tsd => entries.filter fun e : TimeEntry => decide (tsd ≤ e.work_date)
    | none => entries
  match target_date with
  | some td => filtered.filter fun e : TimeEntry => decide (e.work_date ≤ td)
  | none => filtered

/-- The sum of daily balances over the filtered entries plus the initial
offset, before the final quantization of `all_time_balance`. -/
def atbRaw (today : ℤ) (entries : List TimeEntry) (s : UserSettings)
    (target_date : Option Nat) : ℚ :=
  let total := ((atbFiltered entries s target_date).map fun e => balance today e s).sum
  match s.initial_hours_offset with
  | some off => total + off
  | none => total

/-- `TimeCalculationService.all_time_balance`. -/
def all_time_balance (today : ℤ) (entries : List TimeEntry) (s : UserSettings)
    (target_date : Option Nat) : ℚ :=
  quantize2 (atbRaw today entries s target_date)

/-- The `while week_start <= last_day` loop of `monthly_summary`,
written with a structural fuel argument (the loop advances `week_start`
by 7 each iteration, so `last_day + 1 - week_start` iterations of fuel
always suffice; see `monthWeeks`). -/
def monthWeeksAux (today : ℤ) (entries : List TimeEntry) (s : UserSettings)
    (last_day : Nat) : Nat → Nat → List WeeklySummary
  | 0, _ => []
  | fuel + 1, week_start =>
      if week_start ≤ last_day then
        let week_entries :=
          entries.filter fun e =>
            decide (week_start ≤ e.work_date ∧ e.work_date ≤ week_start + 6)
        weekly_summary today week_entries s week_start ::
          monthWeeksAux today entries s last_day fuel (week_start + 7)
      else []

/-- The list of weekly summaries produced by the `monthly_summary` loop. -/
def monthWeeks (today : ℤ) (entries : List TimeEntry) (s : UserSettings)
    (last_day week_start : Nat) : List WeeklySummary :=
  monthWeeksAux today entries s last_day (last_day + 1 - week_start) week_start

/-- `date(year, month, 1)`, the first day of the month as an ordinal. -/
def month_first_day (y m : Nat) : Nat := toOrdinal y m 1

/-- `date(year, month, monthrange(year, month)[1])`, the last day of the
month as an ordinal. -/
def month_last_day (y m : Nat) : Nat := toOrdinal y m (daysInMonth y m)

/-- The days of a weekly summary whose date falls inside the month
(`first_day <= day.date <= last_day` in the accumulation loop). -/
def monthInDays (first_day last_day : Nat) (w : WeeklySummary) : List DaySummary :=
  w.days.filter fun d => decide (first_day ≤ d.date ∧ d.date ≤ last_day)

/-- The `total_actual` accumulator of `monthly_summary` before final
quantization. -/
def month_total_actual_raw (today : ℤ) (entries : List TimeEntry) (s : UserSettings)
    (y m : Nat) : ℚ :=
  let first_day := month_first_day y m
  let last_day := month_last_day y m
  ((monthWeeks today entries s last_day (first_day - weekday first_day)).map fun w =>
    ((monthInDays first_day last_day w).map (·.actual_hours)).sum).sum

/-- The `total_target` accumulator of `monthly_summary` before final
quantization. -/
def month_total_target_raw (today : ℤ) (entries : List TimeEntry) (s : UserSettings)
    (y m : Nat) : ℚ :=
  let first_day := month_first_day y m
  let last_day := month_last_day y m
  ((monthWeeks today entries s last_day (first_day - weekday first_day)).map fun w =>
    ((monthInDays first_day last_day w).map (·.target_hours)).sum).sum

/-- The `period_balance` accumulator of `monthly_summary` before final
quantization. -/
def month_period_balance_raw (today : ℤ) (entries : List TimeEntry) (s : UserSettings)
    (y m : Nat) : ℚ :=
  let first_day := month_first_day y m
  let last_day := month_last_day y m
  ((monthWeeks today entries s last_day (first_day - weekday first_day)).map fun w =>
    ((monthInDays first_day last_day w).map (·.balance)).sum).sum

/-- The `carryover_in` computation of `monthly_summary` before final
quantization: 0 without a tracking epoch; `initial_hours_offset` for the
epoch month; otherwise a full-history replay up to the day before the
month (`first_day - timedelta(days=1)`). -/
def month_carryover_in_raw (today : ℤ) (entries : List TimeEntry) (s : UserSettings)
    (y m : Nat) : ℚ :=
  let first_day := month_first_day y m
  let last_day := month_last_day y m
  match s.tracking_start_date with
  | none => 0
  | some tsd =>
      if first_day ≤ tsd ∧ tsd ≤ last_day then s.initial_hours_offset.getD 0
      else if tsd < first_day then all_time_balance today entries s (some (first_day - 1))
      else 0

/-- `TimeCalculationService.monthly_summary`. -/
def monthly_summary (today : ℤ) (entries : List TimeEntry) (s : UserSettings)
    (y m : Nat) : MonthlySummary :=
  let first_day := month_first_day y m
  let last_day := month_last_day y m
  { year := y
    month := m
    weeks := monthWeeks today entries s last_day (first_day - weekday first_day)
    total_actual := quantize2 (month_total_actual_raw today entries s y m)
    total_target := quantize2 (month_total_target_raw today entries s y m)
    period_balance := quantize2 (month_period_balance_raw today entries s y m)
    carryover_in := quantize2 (month_carryover_in_raw today entries s y m)
    carryover_out := quantize2 (month_carryover_in_raw today entries s y m
        + month_period_balance_raw today entries s y m) }

/-! ## VacationCalculationService (`source/services/vacation_calculation.py`) -/

/-- `VacationBalance` dataclass. -/
structure VacationBalance where
  total_entitlement : ℚ
  days_used : ℚ
  days_remaining : ℚ
  carryover_days : ℚ
  carryover_expires : Option Nat
deriving DecidableEq

/-- `VacationWarning` dataclass.  The German display message (an f-string
of the carryover amount and expiry date, pure presentation text) is not
modelled. -/
structure VacationWarning where
  severity : String
  days_expiring : ℚ
  expiry_date : Nat
deriving DecidableEq

/-- `VacationCalculationService.count_vacation_days`. -/
def count_vacation_days (entries : List TimeEntry) (start stop : Nat) : ℚ :=
  entries.foldl
    (fun count e =>
      if e.absence_type = AbsenceType.vacation ∧ start ≤ e.work_date ∧ e.work_date ≤ stop
      then count + 1 else count) 0

/-- `dateutil.relativedelta(d1, d2).years` for two plain dates given as
ordinals: the signed number of whole months between them, sign-truncated
to years.  (With `months0` the raw year*12+month difference, dateutil's
correction loop moves it by at most one step, landing on the clamped
anchor day `min(day2, daysInMonth(y1, m1))`.) -/
def relativedeltaYears (d1 d2 : Nat) : ℤ :=
  let y1 := (ord2ymd d1).1
  let m1 := (ord2ymd d1).2.1
  let day1 := (ord2ymd d1).2.2
  let y2 := (ord2ymd d2).1
  let m2 := (ord2ymd d2).2.1
  let day2 := (ord2ymd d2).2.2
  let months0 : ℤ := ((y1 : ℤ) - y2) * 12 + ((m1 : ℤ) - m2)
  let anchor := min day2 (daysInMonth y1 m1)
  let months : ℤ :=
    if d2 ≤ d1 then (if day1 < anchor then months0 - 1 else months0)
    else (if day1 > anchor then months0 + 1 else months0)
  Int.tdiv months 12

/-- `VacationCalculationService.calculate_balance`. -/
def calculate_balance (entries : List TimeEntry) (s : UserSettings)
    (as_of : Nat) : VacationBalance :=
  let initial_days := s.initial_vacation_days.getD 0
  let annual_days := s.annual_vacation_days.getD 0
  let carryover_days := s.vacation_carryover_days.getD 0
  let carryover_expires := s.vacation_carryover_expires
  let valid_carryover : ℚ :=
    match carryover_expires with
    | some exp => if as_of ≤ exp then carryover_days else 0
    | none => carryover_days
  let annual_entitlement : ℚ :=
    match s.tracking_start_date with
    | some tsd =>
        if annual_days > 0 then
          let years_diff := relativedeltaYears as_of tsd
          if years_diff > 0 then annual_days * (years_diff : ℚ) else 0
        else 0
    | none => 0
  let total_entitlement := initial_days + valid_carryover + annual_entitlement
  let days_used : ℚ :=
    match s.tracking_start_date, entries with
    | some tsd, _ => count_vacation_days entries tsd as_of
    | none, [] => 0
    | none, e :: rest =>
        count_vacation_days entries
          (rest.foldl (fun a x => min a x.work_date) e.work_date) as_of
  { total_entitlement := total_entitlement
    days_used := days_used
    days_remaining := total_entitlement - days_used
    carryover_days := valid_carryover
    carryover_expires := carryover_expires }

/-- `VacationCalculationService.get_expiry_warning`. -/
def get_expiry_warning (b : VacationBalance) (as_of : Nat) : Option VacationWarning :=
  if b.carryover_days = 0 then none
  else
    match b.carryover_expires with
    | none => none
    | some exp =>
        if exp < as_of then none
        else
          let days_until_expiry : ℤ := (exp : ℤ) - (as_of : ℤ)
          if days_until_expiry > 30 then none
          else
            let severity :=
              if days_until_expiry < 7 then "critical"
              else if days_until_expiry ≤ 14 then "warning"
              else "info"
            some { severity := severity
                   days_expiring := b.carryover_days
                   expiry_date := exp }

/-! ## Holidays (`source/core/holidays.py`) -/

/-- `calculate_easter(year)`: Meeus/Jones/Butcher algorithm, returning
the ordinal of Easter Sunday.  (For the valid range 1583–4099 every
intermediate Python `int` is non-negative, so `Nat` arithmetic agrees.) -/
def calculate_easter (year : Nat) : Nat :=
  let a := year % 19
  let b := year / 100
  let c := year % 100
  let d := b / 4
  let e := b % 4
  let f := (b + 8) / 25
  let g := (b - f + 1) / 3
  let h := (19 * a + b - d - g + 15) % 30
  let i := c / 4
  let k := c % 4
  let ell := (32 + 2 * e + 2 * i - h - k) % 7
  let m := (a + 11 * h + 22 * ell) / 451
  let month := (h + ell - 7 * m + 114) / 31
  let day := (h + ell - 7 * m + 114) % 31 + 1
  toOrdinal year month day

/-- Python dict insertion: replacing the value of an existing key keeps
its position; a new key is appended. -/
def dictInsert (m : List (Nat × String)) (k : Nat) (v : String) : List (Nat × String) :=
  if m.any fun p => p.1 = k then m.map fun p => if p.1 = k then (k, v) else p
  else m ++ [(k, v)]

/-- Python `dict.get`. -/
def dictGet (m : List (Nat × String)) (k : Nat) : Option String :=
  (m.find? fun p => p.1 = k).map (·.2)

/-- `get_german_holidays(year)`: the five fixed holidays followed by the
four Easter-relative ones, inserted into a dict keyed by date. -/
def get_german_holidays (year : Nat) : List (Nat × String) :=
  let holidays : List (Nat × String) := []
  let holidays := dictInsert holidays (toOrdinal year 1 1) "Neujahr"
  let holidays := dictInsert holidays (toOrdinal year 5 1) "Tag der Arbeit"
  let holidays := dictInsert holidays (toOrdinal year 10 3) "Tag der Deutschen Einheit"
  let holidays := dictInsert holidays (toOrdinal year 12 25) "1. Weihnachtstag"
  let holidays := dictInsert holidays (toOrdinal year 12 26) "2. Weihnachtstag"
  let easter := calculate_easter year
  let holidays := dictInsert holidays (easter - 2) "Karfreitag"
  let holidays := dictInsert holidays (easter + 1) "Ostermontag"
  let holidays := dictInsert holidays (easter + 39) "Christi Himmelfahrt"
  let holidays := dictInsert holidays (easter + 50) "Pfingstmontag"
  holidays

/-- Boolean check of the holiday-table size for year `1583 + i`: the
table has 8 entries when Easter is March 23 and 9 entries otherwise.
Kept at the `Bool` level so the whole 1583–4099 range can be checked by
kernel evaluation of one list fold. -/
def holidayCountCheck (i : Nat) : Bool :=
  ((calculate_easter (1583 + i) == toOrdinal (1583 + i) 3 23)
      && (get_german_holidays (1583 + i)).length == 8)
    || ((calculate_easter (1583 + i) != toOrdinal (1583 + i) 3 23)
      && (get_german_holidays (1583 + i)).length == 9)

/-- `holidayCountCheck` over the index interval `[a, b)`. -/
def holidayCheckRange (a b : Nat) : Bool :=
  (List.range' a (b - a)).all holidayCountCheck

/-! ## Status erasure (for the status-opacity property) -/

/-- Forget the CRUD lifecycle status of a record (no engine function
reads it). -/
def eraseStatus (e : TimeEntry) : TimeEntry := { e with status := RecordStatus.draft }

/-- Two records that agree on every field except (possibly) the
draft/submitted status. -/
def SameExceptStatus (e₁ e₂ : TimeEntry) : Prop := eraseStatus e₁ = eraseStatus e₂

/-! ## Concrete inputs used in scenarios and counterexamples -/

/-- 32 h/week, no tracking epoch, no offsets. -/
def settings32 : UserSettings :=
  ⟨1, 32, Option.none, Option.none, Option.none, Option.none, Option.none, Option.none⟩

/-- 32 h/week, tracking epoch 2026-01-15, initial offset 12.50 h. -/
def settingsEpochJan2026 : UserSettings :=
  ⟨1, 32, some (toOrdinal 2026 1 15), some ((1250 : ℚ) / 100),
    Option.none, Option.none, Option.none, Option.none⟩

/-- 32 h/week, no tracking epoch but initial offset 12.50 h set. -/
def settingsOffsetNoEpoch : UserSettings :=
  ⟨1, 32, Option.none, some ((1250 : ℚ) / 100),
    Option.none, Option.none, Option.none, Option.none⟩

/-- A `holiday` record that nevertheless carries times 08:00–10:00
(Tuesday 2026-01-06). -/
def holidayEntryWithTimes : TimeEntry :=
  ⟨1, toOrdinal 2026 1 6, some 480, some 600, 0, AbsenceType.holiday, RecordStatus.draft⟩

/-- A `holiday` record without clock times (Tuesday 2026-01-06). -/
def holidayEntryNoTimes : TimeEntry :=
  ⟨1, toOrdinal 2026 1 6, Option.none, Option.none, 0, AbsenceType.holiday, RecordStatus.draft⟩

/-- A vacation record with times set (they must not matter). -/
def vacationEntry : TimeEntry :=
  ⟨1, toOrdinal 2026 1 6, some 480, some 960, 30, AbsenceType.vacation, RecordStatus.draft⟩

/-- 07:00–17:00, 60 min break, on Tuesday 2026-01-06, status draft. -/
def draftEntry : TimeEntry :=
  ⟨1, toOrdinal 2026 1 6, some 420, some 1020, 60, AbsenceType.none, RecordStatus.draft⟩

/-- The same record as `draftEntry` but submitted. -/
def submittedEntry : TimeEntry :=
  ⟨1, toOrdinal 2026 1 6, some 420, some 1020, 60, AbsenceType.none, RecordStatus.submitted⟩

/-- One 08:00–16:00 record (30 min break) for every day of February
2026: every weekday of the month is covered. -/
def feb2026Entries : List TimeEntry :=
  (dateList (month_first_day 2026 2) (month_last_day 2026 2)).map fun d =>
    ⟨1, d, some 480, some 960, 30, AbsenceType.none, RecordStatus.draft⟩

/-- Balance with 5 carryover days expiring 2026-03-31. -/
def balanceC6 : VacationBalance := ⟨0, 0, 0, 5, some (toOrdinal 2026 3 31)⟩

/-! ## Rounding and two-decimal arithmetic -/

theorem roundHalfUp_def (q : ℚ) :
    roundHalfUp q = if 0 ≤ q then ⌊q + 1/2⌋ else -⌊-q + 1/2⌋ := by
  have hfl : ∀ x : ℚ, x.floor = ⌊x⌋ := fun x => by
    rw [Rat.floor_def', Rat.floor_def]
  unfold roundHalfUp
  simp only [Rat.num_nonneg, hfl]

theorem roundHalfUp_intCast (n : ℤ) : roundHalfUp (n : ℚ) = n := by
  rw [roundHalfUp_def]
  have h1 : ⌊(n : ℚ) + 1/2⌋ = n := by
    rw [add_comm, Int.floor_add_int]
    norm_num
  have h2 : ⌊-(n : ℚ) + 1/2⌋ = -n := by
    rw [add_comm, ← Int.cast_neg, Int.floor_add_int]
    norm_num
  by_cases h : (0 : ℚ) ≤ (n : ℚ)
  · rw [if_pos h, h1]
  · rw [if_neg h, h2, neg_neg]

theorem quantize2_isCent (q : ℚ) : isCent (quantize2 q) :=
  ⟨roundHalfUp (q * 100), rfl⟩

theorem quantize2_cent {q : ℚ} (h : isCent q) : quantize2 q = q := by
  obtain ⟨n, rfl⟩ := h
  unfold quantize2
  have h100 : ((n : ℚ) / 100) * 100 = (n : ℚ) := by
    field_simp
  rw [h100, roundHalfUp_intCast]

theorem isCent_zero : isCent 0 := ⟨0, by norm_num⟩

theorem isCent_add {p q : ℚ} (hp : isCent p) (hq : isCent q) : isCent (p + q) := by
  obtain ⟨m, rfl⟩ := hp
  obtain ⟨n, rfl⟩ := hq
  exact ⟨m + n, by push_cast; ring⟩

theorem isCent_neg {p : ℚ} (hp : isCent p) : isCent (-p) := by
  obtain ⟨m, rfl⟩ := hp
  exact ⟨-m, by push_cast; ring⟩

theorem isCent_sub {p q : ℚ} (hp : isCent p) (hq : isCent q) : isCent (p - q) := by
  rw [sub_eq_add_neg]
  exact isCent_add hp (isCent_neg hq)

theorem isCent_sum {l : List ℚ} (h : ∀ x ∈ l, isCent x) : isCent l.sum := by
  induction l with
  | nil => simpa using isCent_zero
  | cons x xs ih =>
      rw [List.sum_cons]
      exact isCent_add (h x (List.mem_cons_self x xs))
        (ih fun y hy => h y (List.mem_cons_of_mem x hy))

theorem quantize2_zero : quantize2 0 = 0 := quantize2_cent isCent_zero

/-- Quantization splits over a sum when one summand is already a clean
two-decimal value. -/
theorem quantize2_add_cent {p q : ℚ} (hp : isCent p) (hq : isCent q) :
    quantize2 (p + q) = quantize2 p + quantize2 q := by
  rw [quantize2_cent (isCent_add hp hq), quantize2_cent hp, quantize2_cent hq]

/-! ## Basic facts about the daily calculations -/

theorem actual_hours_isCent (today : ℤ) (e : TimeEntry) : isCent (actual_hours today e) := by
  unfold actual_hours
  cases e.start_time <;> cases e.end_time <;>
    first
      | exact isCent_zero
      | exact quantize2_isCent _

theorem target_hours_isCent (e : TimeEntry) (s : UserSettings) : isCent (target_hours e s) := by
  unfold target_hours
  by_cases h5 : weekday e.work_date ≥ 5
  · rw [if_pos h5]; exact isCent_zero
  · rw [if_neg h5]
    by_cases hH : e.absence_type = AbsenceType.holiday
    · rw [if_pos hH]; exact isCent_zero
    · rw [if_neg hH]; exact quantize2_isCent _

theorem balance_isCent (today : ℤ) (e : TimeEntry) (s : UserSettings) :
    isCent (balance today e s) := by
  unfold balance
  by_cases h : e.absence_type = AbsenceType.vacation ∨ e.absence_type = AbsenceType.sick
  · rw [if_pos h]; exact isCent_zero
  · rw [if_neg h]; exact quantize2_isCent _

/-- The duration subtraction cancels the `today` date that
`datetime.combine` attached to both clock times. -/
theorem actual_hours_today_irrelevant (t₁ t₂ : ℤ) (e : TimeEntry) :
    actual_hours t₁ e = actual_hours t₂ e := by
  unfold actual_hours
  cases e.start_time with
  | none => rfl
  | some st =>
      cases e.end_time with
      | none => rfl
      | some et =>
          simp only
          ring_nf

theorem balance_today_irrelevant (t₁ t₂ : ℤ) (e : TimeEntry) (s : UserSettings) :
    balance t₁ e s = balance t₂ e s := by
  unfold balance
  rw [actual_hours_today_irrelevant t₁ t₂]

/-! ## Claim C9: vacation/sick days are balance-neutral -/

/-- C9: for every record whose absence category is vacation or sick,
`balance` is 0.00 for all settings and wall-clock dates, regardless of
the start/end times present on the record. -/
theorem vacation_sick_balance_zero (today : ℤ) (e : TimeEntry) (s : UserSettings)
    (h : e.absence_type = AbsenceType.vacation ∨ e.absence_type = AbsenceType.sick) :
    balance today e s = 0 := by
  unfold balance
  rw [if_pos h]

/-- Witness for C9: a vacation record with times 08:00–16:00 set still
balances to 0. -/
theorem vacation_sick_balance_zero_witness :
    balance 0 vacationEntry settings32 = 0 :=
  vacation_sick_balance_zero 0 vacationEntry settings32 (Or.inl rfl)

/-! ## Claim C3: holiday days -/

/-- C3 counterexample: the claim asserts holiday records balance to 0.00
whether or not times are present, but a holiday record with times
08:00–10:00 has `actual_hours = 2.00`, `target_hours = 0.00`, so its
balance is 2.00 ≠ 0. -/
theorem holiday_balance_counterexample :
    balance 0 holidayEntryWithTimes settings32 ≠ 0 := by decide!

/-- C3 amended: a record with absence category holiday and no start/end
time pair balances to 0.00 (0 actual − 0 target), for every settings and
wall-clock date. -/
theorem holiday_balance_zero_no_times (today : ℤ) (e : TimeEntry) (s : UserSettings)
    (hH : e.absence_type = AbsenceType.holiday)
    (hT : e.start_time = Option.none ∨ e.end_time = Option.none) :
    balance today e s = 0 := by
  have hact : actual_hours today e = 0 := by
    unfold actual_hours
    rcases hT with h | h
    · rw [h]
    · rw [h]
      try cases e.start_time <;> rfl
  have htar : target_hours e s = 0 := by
    unfold target_hours
    by_cases h5 : weekday e.work_date ≥ 5
    · rw [if_pos h5]
    · rw [if_neg h5, if_pos hH]
  unfold balance
  rw [if_neg (by rw [hH]; rintro (h | h) <;> exact AbsenceType.noConfusion h), hact, htar]
  try simpa using quantize2_zero

/-- Witness for the amended C3: a timeless holiday record balances to 0. -/
theorem holiday_balance_zero_no_times_witness :
    balance 0 holidayEntryNoTimes settings32 = 0 :=
  holiday_balance_zero_no_times 0 holidayEntryNoTimes settings32 rfl (Or.inl rfl)

/-! ## Claim C7: Easter 2026 and the derived holidays -/

/-- C7: `calculate_easter 2026` is April 5, 2026, and the 2026 holiday
table therefore maps April 3 to Karfreitag (Good Friday), April 6 to
Ostermontag (Easter Monday), May 14 to Christi Himmelfahrt (Ascension)
and May 25 to Pfingstmontag (Whit Monday). -/
theorem easter_2026_holidays :
    calculate_easter 2026 = toOrdinal 2026 4 5
    ∧ dictGet (get_german_holidays 2026) (toOrdinal 2026 4 3) = some ("Karfreitag")
    ∧ dictGet (get_german_holidays 2026) (toOrdinal 2026 4 6) = some ("Ostermontag")
    ∧ dictGet (get_german_holidays 2026) (toOrdinal 2026 5 14) = some ("Christi Himmelfahrt")
    ∧ dictGet (get_german_holidays 2026) (toOrdinal 2026 5 25) = some ("Pfingstmontag") := by
  decide

/-! ## Claim C2: size of the holiday table -/

/-- C2 counterexample: 2008 lies in the valid range 1583–4099, but
Easter 2008 is March 23, so Ascension (Easter + 39 days) falls on May 1
and collides with Labour Day; the date→name dict has 8 entries, not 9. -/
theorem holidays_2008_counterexample :
    1583 ≤ 2008 ∧ 2008 ≤ 4099
    ∧ calculate_easter 2008 = toOrdinal 2008 3 23
    ∧ (get_german_holidays 2008).length = 8
    ∧ (get_german_holidays 2008).length ≠ 9 := by
  decide!

set_option maxHeartbeats 2000000 in
theorem holidayCheck_chunk0 : holidayCheckRange 0 300 = true := by decide!

set_option maxHeartbeats 2000000 in
theorem holidayCheck_chunk1 : holidayCheckRange 300 600 = true := by decide!

set_option maxHeartbeats 2000000 in
theorem holidayCheck_chunk2 : holidayCheckRange 600 900 = true := by decide!

set_option maxHeartbeats 2000000 in
theorem holidayCheck_chunk3 : holidayCheckRange 900 1200 = true := by decide!

set_option maxHeartbeats 2000000 in
theorem holidayCheck_chunk4 : holidayCheckRange 1200 1500 = true := by decide!

set_option maxHeartbeats 2000000 in
theorem holidayCheck_chunk5 : holidayCheckRange 1500 1800 = true := by decide!

set_option maxHeartbeats 2000000 in
theorem holidayCheck_chunk6 : holidayCheckRange 1800 2100 = true := by decide!

set_option maxHeartbeats 2000000 in
theorem holidayCheck_chunk7 : holidayCheckRange 2100 2400 = true := by decide!

set_option maxHeartbeats 2000000 in
theorem holidayCheck_chunk8 : holidayCheckRange 2400 2517 = true := by decide!

/-- Adjacent interval checks combine. -/
theorem holidayCheckRange_append {a b c : Nat} (h1 : a ≤ b) (h2 : b ≤ c)
    (hab : holidayCheckRange a b = true) (hbc : holidayCheckRange b c = true) :
    holidayCheckRange a c = true := by
  unfold holidayCheckRange at hab hbc ⊢
  rw [show c - a = (c - b) + (b - a) from by omega, ← List.range'_append_1,
    show a + (b - a) = b from by omega, List.all_append, hab, hbc]
  rfl

/-- Exhaustive check of the holiday-table size over the whole valid year
range, indexed from 1583. -/
theorem holidayCountCheck_all : (List.range 2517).all holidayCountCheck = true := by
  have h03 := holidayCheckRange_append (by omega) (by omega)
    (holidayCheckRange_append (by omega) (by omega) holidayCheck_chunk0 holidayCheck_chunk1)
    holidayCheck_chunk2
  have h06 := holidayCheckRange_append (by omega) (by omega)
    (holidayCheckRange_append (by omega) (by omega) h03 holidayCheck_chunk3)
    holidayCheck_chunk4
  have h09 := holidayCheckRange_append (by omega) (by omega)
    (holidayCheckRange_append (by omega) (by omega) h06 holidayCheck_chunk5)
    holidayCheck_chunk6
  have hall := holidayCheckRange_append (by omega) (by omega)
    (holidayCheckRange_append (by omega) (by omega) h09 holidayCheck_chunk7)
    holidayCheck_chunk8
  unfold holidayCheckRange at hall
  rw [List.range_eq_range']
  simpa using hall

/-- C2 amended: for every year in 1583–4099 the holiday table has
exactly 9 entries, except in years where Easter falls on March 23 (so
that Ascension lands on the fixed holiday May 1), where it has 8. -/
theorem holidays_count (y : Nat) (h1 : 1583 ≤ y) (h2 : y ≤ 4099) :
    (get_german_holidays y).length
      = if calculate_easter y = toOrdinal y 3 23 then 8 else 9 := by
  obtain ⟨i, rfl⟩ : ∃ i, y = 1583 + i := ⟨y - 1583, by omega⟩
  have hb := List.all_eq_true.mp holidayCountCheck_all i (List.mem_range.mpr (by omega))
  unfold holidayCountCheck at hb
  simp only [Bool.or_eq_true, Bool.and_eq_true, beq_iff_eq, bne_iff_ne,
    Nat.beq_eq_true_eq] at hb
  by_cases hc : calculate_easter (1583 + i) = toOrdinal (1583 + i) 3 23
  · rw [if_pos hc]
    rcases hb with ⟨_, h8⟩ | ⟨hne, _⟩
    · exact h8
    · exact absurd hc hne
  · rw [if_neg hc]
    rcases hb with ⟨heq, _⟩ | ⟨_, h9⟩
    · exact absurd heq hc
    · exact h9

/-- Witness for the amended C2 at year 2026 (a 9-entry year). -/
theorem holidays_count_witness :
    (get_german_holidays 2026).length
      = if calculate_easter 2026 = toOrdinal 2026 3 23 then 8 else 9 :=
  holidays_count 2026 (by norm_num) (by norm_num)

/-! ## Claim C5: determinism / wall-clock independence -/

/-- C5: `all_time_balance` is deterministic: identical entries, settings
and cutoff give identical output on any two wall-clock dates — the
`datetime.combine(today, ·)` terms cancel in the duration subtraction. -/
theorem all_time_balance_deterministic (t₁ t₂ : ℤ) (entries : List TimeEntry)
    (s : UserSettings) (cutoff : Option Nat) :
    all_time_balance t₁ entries s cutoff = all_time_balance t₂ entries s cutoff := by
  unfold all_time_balance atbRaw
  have hmap : ((atbFiltered entries s cutoff).map fun e => balance t₁ e s)
      = (atbFiltered entries s cutoff).map fun e => balance t₂ e s :=
    List.map_congr_left fun e _ => balance_today_irrelevant t₁ t₂ e s
  rw [hmap]

/-! ## Claim C6: expiry-warning characterization -/

/-- C6: `get_expiry_warning` returns `none` exactly when there are no
carryover days, no expiry date, the expiry date lies strictly before
`as_of`, or more than 30 days remain; when it returns a warning, the
severity is critical below 7 remaining days, warning from 7 to 14, and
info otherwise (i.e. 15 to 30 given that a warning was returned). -/
theorem expiry_warning_characterization (b : VacationBalance) (as_of : Nat) :
    (get_expiry_warning b as_of = Option.none ↔
      b.carryover_days = 0 ∨ b.carryover_expires = Option.none ∨
        (∃ exp, b.carryover_expires = some exp ∧ exp < as_of) ∨
        (∃ exp, b.carryover_expires = some exp ∧ as_of ≤ exp ∧ 30 < (exp : ℤ) - (as_of : ℤ)))
    ∧ ∀ w exp, get_expiry_warning b as_of = some w → b.carryover_expires = some exp →
        w.severity = if (exp : ℤ) - (as_of : ℤ) < 7 then ("critical")
          else if (exp : ℤ) - (as_of : ℤ) ≤ 14 then ("warning") else ("info") := by
  simp only [get_expiry_warning]
  by_cases hcd : b.carryover_days = 0
  · rw [if_pos hcd]
    refine ⟨iff_of_true rfl (Or.inl hcd), ?_⟩
    intro w exp hw
    exact Option.noConfusion hw
  · rw [if_neg hcd]
    cases hex : b.carryover_expires with
    | none =>
        refine ⟨iff_of_true rfl (Or.inr (Or.inl rfl)), ?_⟩
        intro w exp hw
        exact Option.noConfusion hw
    | some exp =>
        simp only []
        by_cases hlt : exp < as_of
        · rw [if_pos hlt]
          refine ⟨iff_of_true rfl (Or.inr (Or.inr (Or.inl ⟨exp, rfl, hlt⟩))), ?_⟩
          intro w exp' hw
          exact Option.noConfusion hw
        · rw [if_neg hlt]
          by_cases h30 : (exp : ℤ) - (as_of : ℤ) > 30
          · rw [if_pos h30]
            refine ⟨iff_of_true rfl
              (Or.inr (Or.inr (Or.inr ⟨exp, rfl, by omega, h30⟩))), ?_⟩
            intro w exp' hw
            exact Option.noConfusion hw
          · rw [if_neg h30]
            constructor
            · refine iff_of_false (by simp) ?_
              rintro (h | h | ⟨e, he, hlt'⟩ | ⟨e, he, _, h30'⟩)
              · exact hcd h
              · exact Option.noConfusion h
              · have he' : e = exp := (Option.some_inj.mp he.symm)
                omega
              · have he' : e = exp := (Option.some_inj.mp he.symm)
                omega
            · intro w exp' hw hexp'
              have hexp'' : exp' = exp := (Option.some_inj.mp hexp').symm
              subst hexp''
              have hw' := Option.some_inj.mp hw
              rw [← hw']

/-- Witness for C6: 5 carryover days expiring 2026-03-31, seen from
2026-03-28 (3 days remaining), yield severity "critical" as in the
spec's scenario. -/
theorem expiry_warning_characterization_witness :
    (⟨("critical"), 5, toOrdinal 2026 3 31⟩ : VacationWarning).severity
      = if ((toOrdinal 2026 3 31 : ℤ) - (toOrdinal 2026 3 28 : ℤ)) < 7 then ("critical")
        else if ((toOrdinal 2026 3 31 : ℤ) - (toOrdinal 2026 3 28 : ℤ)) ≤ 14 then ("warning")
        else ("info") :=
  (expiry_warning_characterization balanceC6 (toOrdinal 2026 3 28)).2
    ⟨("critical"), 5, toOrdinal 2026 3 31⟩ (toOrdinal 2026 3 31) (by decide!) rfl

/-! ## Projections of `monthly_summary` -/

theorem monthly_summary_carryover_in (today : ℤ) (entries : List TimeEntry)
    (s : UserSettings) (y m : Nat) :
    (monthly_summary today entries s y m).carryover_in
      = quantize2 (month_carryover_in_raw today entries s y m) := rfl

theorem monthly_summary_carryover_out (today : ℤ) (entries : List TimeEntry)
    (s : UserSettings) (y m : Nat) :
    (monthly_summary today entries s y m).carryover_out
      = quantize2 (month_carryover_in_raw today entries s y m
          + month_period_balance_raw today entries s y m) := rfl

theorem monthly_summary_period_balance (today : ℤ) (entries : List TimeEntry)
    (s : UserSettings) (y m : Nat) :
    (monthly_summary today entries s y m).period_balance
      = quantize2 (month_period_balance_raw today entries s y m) := rfl

/-! ## Two-decimal-ness of the aggregated quantities -/

theorem daySummaryFor_balance_isCent (today : ℤ) (entries : List TimeEntry)
    (s : UserSettings) (d : Nat) :
    isCent (daySummaryFor today entries s d).balance := by
  unfold daySummaryFor
  cases lastEntryOn entries d with
  | some e => exact balance_isCent today e s
  | none =>
      simp only []
      by_cases h : weekday d < 5
      · rw [if_pos h]
        exact isCent_sub isCent_zero (quantize2_isCent _)
      · rw [if_neg h]
        exact isCent_sub isCent_zero isCent_zero

theorem weekly_summary_day_balance_isCent (today : ℤ) (entries : List TimeEntry)
    (s : UserSettings) (ws : Nat) (ds : DaySummary)
    (hds : ds ∈ (weekly_summary today entries s ws).days) :
    isCent ds.balance := by
  unfold weekly_summary at hds
  simp only [List.mem_map] at hds
  obtain ⟨i, _, rfl⟩ := hds
  exact daySummaryFor_balance_isCent today entries s (ws + i)

theorem monthWeeksAux_mem (today : ℤ) (entries : List TimeEntry) (s : UserSettings)
    (last_day : Nat) :
    ∀ fuel ws w, w ∈ monthWeeksAux today entries s last_day fuel ws →
      ∃ es ws', w = weekly_summary today es s ws' := by
  intro fuel
  induction fuel with
  | zero =>
      intro ws w h
      simp [monthWeeksAux] at h
  | succ n ih =>
      intro ws w h
      rw [monthWeeksAux] at h
      by_cases hle : ws ≤ last_day
      · rw [if_pos hle] at h
        rcases List.mem_cons.mp h with rfl | h'
        · exact ⟨_, ws, rfl⟩
        · exact ih _ w h'
      · rw [if_neg hle] at h
        exact absurd h (List.not_mem_nil w)

theorem month_period_balance_raw_isCent (today : ℤ) (entries : List TimeEntry)
    (s : UserSettings) (y m : Nat) :
    isCent (month_period_balance_raw today entries s y m) := by
  unfold month_period_balance_raw
  apply isCent_sum
  intro x hx
  obtain ⟨w, hw, rfl⟩ := List.mem_map.mp hx
  apply isCent_sum
  intro q hq
  obtain ⟨ds, hds, rfl⟩ := List.mem_map.mp hq
  have hds' : ds ∈ w.days := List.mem_of_mem_filter hds
  obtain ⟨es, ws', rfl⟩ := monthWeeksAux_mem today entries s _ _ _ w hw
  exact weekly_summary_day_balance_isCent today es s ws' ds hds'

theorem all_time_balance_isCent (today : ℤ) (entries : List TimeEntry)
    (s : UserSettings) (c : Option Nat) :
    isCent (all_time_balance today entries s c) := by
  unfold all_time_balance
  exact quantize2_isCent _

theorem month_carryover_in_raw_isCent (today : ℤ) (entries : List TimeEntry)
    (s : UserSettings) (y m : Nat)
    (hoff : s.initial_hours_offset = Option.none
      ∨ ∃ off, s.initial_hours_offset = some off ∧ isCent off) :
    isCent (month_carryover_in_raw today entries s y m) := by
  unfold month_carryover_in_raw
  cases s.tracking_start_date with
  | none => exact isCent_zero
  | some tsd =>
      simp only []
      by_cases h1 : month_first_day y m ≤ tsd ∧ tsd ≤ month_last_day y m
      · rw [if_pos h1]
        rcases hoff with h | ⟨off, h, hc⟩ <;> rw [h]
        · exact isCent_zero
        · exact hc
      · rw [if_neg h1]
        by_cases h2 : tsd < month_first_day y m
        · rw [if_pos h2]
          exact all_time_balance_isCent today entries s _
        · rw [if_neg h2]
          exact isCent_zero

/-! ## Claim C4: monthly carry-in and carry-out -/

/-- C4: carry-in is 0.00 with a null tracking epoch; for the month
containing the epoch it is the initial offset alone (0.00 when unset);
when the epoch precedes the month it is the full-history replay up to
the day before the month (the last day of month M−1); and in every case
carry-out = carry-in + period balance. -/
theorem monthly_carryover_rules (today : ℤ) (entries : List TimeEntry) (s : UserSettings)
    (y m : Nat)
    (hoff : s.initial_hours_offset = Option.none
      ∨ ∃ off, s.initial_hours_offset = some off ∧ isCent off) :
    ((s.tracking_start_date = Option.none →
        (monthly_summary today entries s y m).carryover_in = 0)
    ∧ (∀ tsd, s.tracking_start_date = some tsd →
        month_first_day y m ≤ tsd → tsd ≤ month_last_day y m →
        (monthly_summary today entries s y m).carryover_in
          = s.initial_hours_offset.getD 0)
    ∧ (∀ tsd, s.tracking_start_date = some tsd → tsd < month_first_day y m →
        (monthly_summary today entries s y m).carryover_in
          = all_time_balance today entries s (some (month_first_day y m - 1)))
    ∧ (monthly_summary today entries s y m).carryover_out
        = (monthly_summary today entries s y m).carryover_in
          + (monthly_summary today entries s y m).period_balance) := by
  have hci := month_carryover_in_raw_isCent today entries s y m hoff
  have hpb := month_period_balance_raw_isCent today entries s y m
  refine ⟨?_, ?_, ?_, ?_⟩
  · intro htsd
    rw [monthly_summary_carryover_in]
    unfold month_carryover_in_raw
    rw [htsd]
    exact quantize2_zero
  · intro tsd htsd h1 h2
    rw [monthly_summary_carryover_in]
    unfold month_carryover_in_raw
    rw [htsd]
    simp only []
    rw [if_pos ⟨h1, h2⟩]
    rcases hoff with h | ⟨off, h, hc⟩ <;> rw [h]
    · exact quantize2_zero
    · exact quantize2_cent hc
  · intro tsd htsd h2
    rw [monthly_summary_carryover_in]
    unfold month_carryover_in_raw
    rw [htsd]
    simp only []
    rw [if_neg (by omega), if_pos h2]
    have h3 := all_time_balance_isCent today entries s (some (month_first_day y m - 1))
    exact quantize2_cent h3
  · rw [monthly_summary_carryover_out, monthly_summary_carryover_in,
      monthly_summary_period_balance]
    exact quantize2_add_cent hci hpb

/-- Witness for C4: for the epoch month January 2026 with offset 12.50,
carry-in is the offset. -/
theorem monthly_carryover_rules_witness :
    (monthly_summary 0 [] settingsEpochJan2026 2026 1).carryover_in
      = settingsEpochJan2026.initial_hours_offset.getD 0 :=
  (monthly_carryover_rules 0 [] settingsEpochJan2026 2026 1
      (Or.inr ⟨(1250 : ℚ) / 100, rfl, ⟨1250, by norm_num⟩⟩)).2.1
    (toOrdinal 2026 1 15) rfl (by decide) (by decide)

/-! ## Claim C10: offset without an epoch -/

/-- C10: when `tracking_start_date` is null but an initial offset is
set, `all_time_balance` still adds the offset to the quantized sum of
the cutoff-filtered daily balances, even though the monthly carry-in is
0.00 in the same configuration. -/
theorem offset_without_epoch (today : ℤ) (entries : List TimeEntry) (s : UserSettings)
    (cutoff : Nat) (y m : Nat) (off : ℚ)
    (htsd : s.tracking_start_date = Option.none)
    (hoff : s.initial_hours_offset = some off) (hcent : isCent off) :
    all_time_balance today entries s (some cutoff)
        = quantize2 ((entries.filter fun e : TimeEntry => decide (e.work_date ≤ cutoff)).map
            fun e => balance today e s).sum + off
    ∧ (monthly_summary today entries s y m).carryover_in = 0 := by
  constructor
  · have hsum : isCent ((entries.filter fun e : TimeEntry =>
        decide (e.work_date ≤ cutoff)).map fun e => balance today e s).sum := by
      apply isCent_sum
      intro x hx
      obtain ⟨e, _, rfl⟩ := List.mem_map.mp hx
      exact balance_isCent today e s
    unfold all_time_balance atbRaw atbFiltered
    rw [htsd, hoff]
    simp only []
    rw [quantize2_add_cent hsum hcent, quantize2_cent hcent]
  · rw [monthly_summary_carryover_in]
    unfold month_carryover_in_raw
    rw [htsd]
    exact quantize2_zero

/-- Witness for C10 at concrete inputs (offset 12.50, empty history,
cutoff 2026-01-31, month January 2026). -/
theorem offset_without_epoch_witness :
    all_time_balance 0 [] settingsOffsetNoEpoch (some (toOrdinal 2026 1 31))
        = quantize2 ((([] : List TimeEntry).filter fun e : TimeEntry =>
            decide (e.work_date ≤ toOrdinal 2026 1 31)).map
            fun e => balance 0 e settingsOffsetNoEpoch).sum + (1250 : ℚ) / 100
    ∧ (monthly_summary 0 [] settingsOffsetNoEpoch 2026 1).carryover_in = 0 :=
  offset_without_epoch 0 [] settingsOffsetNoEpoch (toOrdinal 2026 1 31) 2026 1
    ((1250 : ℚ) / 100) rfl rfl ⟨1250, by norm_num⟩

/-! ## Status opacity: no engine function reads `status` -/

theorem eraseStatus_work_date (e : TimeEntry) :
    (eraseStatus e).work_date = e.work_date := rfl

theorem balance_eraseStatus (today : ℤ) (e : TimeEntry) (s : UserSettings) :
    balance today (eraseStatus e) s = balance today e s := rfl

theorem balance_statusFree (today : ℤ) (s : UserSettings) {e₁ e₂ : TimeEntry}
    (h : SameExceptStatus e₁ e₂) :
    balance today e₁ s = balance today e₂ s := by
  have h' : eraseStatus e₁ = eraseStatus e₂ := h
  calc balance today e₁ s = balance today (eraseStatus e₁) s := rfl
    _ = balance today (eraseStatus e₂) s := by rw [h']
    _ = balance today e₂ s := rfl

theorem map_eraseStatus_eq {es₁ es₂ : List TimeEntry}
    (h : List.Forall₂ SameExceptStatus es₁ es₂) :
    es₁.map eraseStatus = es₂.map eraseStatus := by
  induction h with
  | nil => rfl
  | cons h1 _ ih =>
      have h1' : eraseStatus _ = eraseStatus _ := h1
      simp only [List.map_cons, h1', ih]

theorem filter_map_eraseStatus (p : TimeEntry → Bool)
    (hp : ∀ e, p (eraseStatus e) = p e) (es : List TimeEntry) :
    (es.map eraseStatus).filter p = (es.filter p).map eraseStatus := by
  induction es with
  | nil => rfl
  | cons e es ih =>
      by_cases h : p e = true
      · rw [List.map_cons, List.filter_cons_of_pos (by rw [hp e]; exact h),
          List.filter_cons_of_pos h, List.map_cons, ih]
      · rw [List.map_cons, List.filter_cons_of_neg (by rw [hp e]; simpa using h),
          List.filter_cons_of_neg (by simpa using h), ih]

theorem atbFiltered_eraseStatus (es : List TimeEntry) (s : UserSettings)
    (c : Option Nat) :
    atbFiltered (es.map eraseStatus) s c = (atbFiltered es s c).map eraseStatus := by
  unfold atbFiltered
  cases s.tracking_start_date with
  | none =>
      cases c with
      | none => rfl
      | some td =>
          exact filter_map_eraseStatus
            (fun e : TimeEntry => decide (e.work_date ≤ td)) (fun e => rfl) es
  | some tsd =>
      cases c with
      | none =>
          exact filter_map_eraseStatus
            (fun e : TimeEntry => decide (tsd ≤ e.work_date)) (fun e => rfl) es
      | some td =>
          simp only []
          rw [filter_map_eraseStatus
              (fun e : TimeEntry => decide (tsd ≤ e.work_date)) (fun e => rfl) es,
            filter_map_eraseStatus
              (fun e : TimeEntry => decide (e.work_date ≤ td)) (fun e => rfl)
              (es.filter fun e : TimeEntry => decide (tsd ≤ e.work_date))]

theorem all_time_balance_eraseStatus (today : ℤ) (es : List TimeEntry)
    (s : UserSettings) (c : Option Nat) :
    all_time_balance today (es.map eraseStatus) s c = all_time_balance today es s c := by
  unfold all_time_balance atbRaw
  rw [atbFiltered_eraseStatus]
  have hmm : ((atbFiltered es s c).map eraseStatus).map (fun e => balance today e s)
      = (atbFiltered es s c).map fun e => balance today e s := by
    rw [List.map_map]
    exact List.map_congr_left fun e _ => balance_eraseStatus today e s
  rw [hmm]

theorem lastEntryOn_acc_eraseStatus (d : Nat) (es : List TimeEntry) :
    ∀ acc : Option TimeEntry,
      (es.map eraseStatus).foldl
          (fun acc e => if e.work_date = d then some e else acc) (acc.map eraseStatus)
        = (es.foldl (fun acc e => if e.work_date = d then some e else acc) acc).map
            eraseStatus := by
  induction es with
  | nil => intro acc; rfl
  | cons e es ih =>
      intro acc
      simp only [List.map_cons, List.foldl_cons]
      by_cases h : e.work_date = d
      · rw [if_pos (show (eraseStatus e).work_date = d from h), if_pos h]
        exact ih (some e)
      · rw [if_neg (show ¬(eraseStatus e).work_date = d from h), if_neg h]
        exact ih acc

theorem lastEntryOn_map_eraseStatus (es : List TimeEntry) (d : Nat) :
    lastEntryOn (es.map eraseStatus) d = (lastEntryOn es d).map eraseStatus := by
  unfold lastEntryOn
  simpa using lastEntryOn_acc_eraseStatus d es Option.none

theorem daySummaryFor_eraseStatus (today : ℤ) (es : List TimeEntry) (s : UserSettings)
    (d : Nat) :
    daySummaryFor today (es.map eraseStatus) s d = daySummaryFor today es s d := by
  unfold daySummaryFor
  rw [lastEntryOn_map_eraseStatus]
  cases lastEntryOn es d <;> rfl

theorem weekly_summary_eraseStatus (today : ℤ) (es : List TimeEntry) (s : UserSettings)
    (ws : Nat) :
    weekly_summary today (es.map eraseStatus) s ws = weekly_summary today es s ws := by
  unfold weekly_summary
  simp only [daySummaryFor_eraseStatus]

theorem monthWeeksAux_eraseStatus (today : ℤ) (es : List TimeEntry) (s : UserSettings)
    (last_day : Nat) :
    ∀ fuel ws, monthWeeksAux today (es.map eraseStatus) s last_day fuel ws
      = monthWeeksAux today es s last_day fuel ws := by
  intro fuel
  induction fuel with
  | zero => intro ws; rfl
  | succ n ih =>
      intro ws
      rw [monthWeeksAux, monthWeeksAux]
      by_cases h : ws ≤ last_day
      · rw [if_pos h, if_pos h, ih]
        simp only []
        rw [filter_map_eraseStatus
            (fun e : TimeEntry => decide (ws ≤ e.work_date ∧ e.work_date ≤ ws + 6))
            (fun e => rfl) es,
          weekly_summary_eraseStatus]
      · rw [if_neg h, if_neg h]

theorem monthWeeks_eraseStatus (today : ℤ) (es : List TimeEntry) (s : UserSettings)
    (last_day week_start : Nat) :
    monthWeeks today (es.map eraseStatus) s last_day week_start
      = monthWeeks today es s last_day week_start := by
  unfold monthWeeks
  exact monthWeeksAux_eraseStatus today es s last_day _ week_start

theorem month_carryover_in_raw_eraseStatus (today : ℤ) (es : List TimeEntry)
    (s : UserSettings) (y m : Nat) :
    month_carryover_in_raw today (es.map eraseStatus) s y m
      = month_carryover_in_raw today es s y m := by
  unfold month_carryover_in_raw
  simp only [all_time_balance_eraseStatus]

theorem monthly_summary_eraseStatus (today : ℤ) (es : List TimeEntry)
    (s : UserSettings) (y m : Nat) :
    monthly_summary today (es.map eraseStatus) s y m = monthly_summary today es s y m := by
  simp only [monthly_summary, month_total_actual_raw, month_total_target_raw,
    month_period_balance_raw]
  rw [monthWeeks_eraseStatus, month_carryover_in_raw_eraseStatus]

theorem count_vacation_days_eraseStatus (es : List TimeEntry) (start stop : Nat) :
    count_vacation_days (es.map eraseStatus) start stop
      = count_vacation_days es start stop := by
  unfold count_vacation_days
  suffices h : ∀ acc : ℚ,
      (es.map eraseStatus).foldl (fun count e =>
        if e.absence_type = AbsenceType.vacation ∧ start ≤ e.work_date ∧ e.work_date ≤ stop
        then count + 1 else count) acc
      = es.foldl (fun count e =>
        if e.absence_type = AbsenceType.vacation ∧ start ≤ e.work_date ∧ e.work_date ≤ stop
        then count + 1 else count) acc from h 0
  induction es with
  | nil => intro acc; rfl
  | cons e es ih =>
      intro acc
      simp only [List.map_cons, List.foldl_cons]
      rw [show (if (eraseStatus e).absence_type = AbsenceType.vacation
            ∧ start ≤ (eraseStatus e).work_date ∧ (eraseStatus e).work_date ≤ stop
          then acc + 1 else acc)
          = (if e.absence_type = AbsenceType.vacation
            ∧ start ≤ e.work_date ∧ e.work_date ≤ stop
          then acc + 1 else acc) from rfl]
      exact ih _

theorem minDate_foldl_eraseStatus (es : List TimeEntry) :
    ∀ a : Nat, (es.map eraseStatus).foldl (fun a x => min a x.work_date) a
      = es.foldl (fun a x => min a x.work_date) a := by
  induction es with
  | nil => intro a; rfl
  | cons e es ih =>
      intro a
      simp only [List.map_cons, List.foldl_cons]
      exact ih _

theorem calculate_balance_eraseStatus (es : List TimeEntry) (s : UserSettings)
    (as_of : Nat) :
    calculate_balance (es.map eraseStatus) s as_of = calculate_balance es s as_of := by
  unfold calculate_balance
  cases hts : s.tracking_start_date with
  | some tsd =>
      simp only []
      rw [count_vacation_days_eraseStatus]
  | none =>
      cases es with
      | nil => rfl
      | cons e rest =>
          simp only [List.map_cons, eraseStatus_work_date]
          rw [minDate_foldl_eraseStatus]
          rw [show count_vacation_days (eraseStatus e :: rest.map eraseStatus)
                (rest.foldl (fun a x => min a x.work_date) e.work_date) as_of
              = count_vacation_days (e :: rest)
                (rest.foldl (fun a x => min a x.work_date) e.work_date) as_of from
              count_vacation_days_eraseStatus (e :: rest) _ as_of]

/-! ## Claim C8: status opacity -/

/-- C8: two record collections that differ only in the draft/submitted
status of their records produce identical daily balances, all-time
balance, weekly and monthly summaries, and vacation balance. -/
theorem status_opacity (today : ℤ) (es₁ es₂ : List TimeEntry) (s : UserSettings)
    (cutoff : Option Nat) (week_start y m as_of : Nat)
    (h : List.Forall₂ SameExceptStatus es₁ es₂) :
    (∀ e₁ e₂, SameExceptStatus e₁ e₂ → balance today e₁ s = balance today e₂ s)
    ∧ all_time_balance today es₁ s cutoff = all_time_balance today es₂ s cutoff
    ∧ weekly_summary today es₁ s week_start = weekly_summary today es₂ s week_start
    ∧ monthly_summary today es₁ s y m = monthly_summary today es₂ s y m
    ∧ calculate_balance es₁ s as_of = calculate_balance es₂ s as_of := by
  have hmap := map_eraseStatus_eq h
  refine ⟨fun e₁ e₂ he => balance_statusFree today s he, ?_, ?_, ?_, ?_⟩
  · rw [← all_time_balance_eraseStatus today es₁ s cutoff, hmap,
      all_time_balance_eraseStatus]
  · rw [← weekly_summary_eraseStatus today es₁ s week_start, hmap,
      weekly_summary_eraseStatus]
  · rw [← monthly_summary_eraseStatus today es₁ s y m, hmap,
      monthly_summary_eraseStatus]
  · rw [← calculate_balance_eraseStatus es₁ s as_of, hmap,
      calculate_balance_eraseStatus]

/-- Witness for C8: the same 07:00–17:00 record as draft and as
submitted yields the same all-time balance. -/
theorem status_opacity_witness :
    all_time_balance 0 [draftEntry] settings32 Option.none
      = all_time_balance 0 [submittedEntry] settings32 Option.none :=
  (status_opacity 0 [draftEntry] [submittedEntry] settings32 Option.none
      (toOrdinal 2026 1 5) 2026 1 (toOrdinal 2026 1 31)
      (List.Forall₂.cons rfl List.Forall₂.nil)).2.1

/-! ## Interval lists of dates -/

theorem mem_dateList {a b d : Nat} : d ∈ dateList a b ↔ a ≤ d ∧ d ≤ b := by
  unfold dateList
  rw [List.mem_range'_1]
  omega

theorem dateList_nodup (a b : Nat) : (dateList a b).Nodup := List.nodup_range' a _

theorem dateList_empty {a b : Nat} (h : b < a) : dateList a b = [] := by
  unfold dateList
  rw [show b + 1 - a = 0 from by omega]
  rfl

theorem dateList_split {a b c : Nat} (h1 : a ≤ c + 1) (h2 : c ≤ b) :
    dateList a b = dateList a c ++ dateList (c + 1) b := by
  unfold dateList
  rw [show b + 1 - (c + 1) = b - c from by omega]
  have h := List.range'_append_1 a (c + 1 - a) (b - c)
  rw [show a + (c + 1 - a) = c + 1 from by omega] at h
  rw [h]
  congr 1
  omega

/-! ## Sums over filtered lists -/

theorem sum_map_filter_eq {α : Type} (p : α → Bool) (f : α → ℚ) (l : List α) :
    ((l.filter p).map f).sum = (l.map fun x => if p x then f x else 0).sum := by
  induction l with
  | nil => rfl
  | cons x xs ih =>
      by_cases h : p x
      · rw [List.filter_cons_of_pos h, List.map_cons, List.sum_cons, List.map_cons,
          List.sum_cons, if_pos h, ih]
      · rw [List.filter_cons_of_neg h, List.map_cons, List.sum_cons, if_neg h, ih,
          zero_add]

theorem sum_map_pick {D : List Nat} (hD : D.Nodup) (c : Nat) (v : ℚ) :
    (D.map fun d => if d = c then v else 0).sum = if c ∈ D then v else 0 := by
  induction D with
  | nil => simp
  | cons d D ih =>
      rw [List.nodup_cons] at hD
      rw [List.map_cons, List.sum_cons, ih hD.2]
      by_cases h : d = c
      · subst h
        rw [if_pos rfl, if_pos (List.mem_cons_self d D), if_neg hD.1, add_zero]
      · rw [if_neg h, zero_add]
        by_cases hc : c ∈ D
        · rw [if_pos hc, if_pos (List.mem_cons_of_mem d hc)]
        · have hnc : c ∉ d :: D := by
            rw [List.mem_cons]
            rintro (hh | hh)
            · exact h hh.symm
            · exact hc hh
          rw [if_neg hc, if_neg hnc]

/-! ## Characterization of the entry map lookup -/

theorem lastEntryOn_acc (d : Nat) (es : List TimeEntry) :
    ∀ acc : Option TimeEntry,
      es.foldl (fun acc e => if e.work_date = d then some e else acc) acc
        = (lastEntryOn es d).or acc := by
  induction es with
  | nil => intro acc; simp [lastEntryOn, Option.or]
  | cons e es ih =>
      intro acc
      unfold lastEntryOn
      simp only [List.foldl_cons, ih]
      cases lastEntryOn es d <;> by_cases h : e.work_date = d <;>
        simp [h, Option.or]

theorem lastEntryOn_cons (d : Nat) (e : TimeEntry) (es : List TimeEntry) :
    lastEntryOn (e :: es) d
      = (lastEntryOn es d).or (if e.work_date = d then some e else none) := by
  unfold lastEntryOn
  rw [List.foldl_cons]
  exact lastEntryOn_acc d es _

theorem lastEntryOn_isSome_of_mem {es : List TimeEntry} {e : TimeEntry} {d : Nat}
    (he : e ∈ es) (hd : e.work_date = d) : (lastEntryOn es d).isSome := by
  induction es with
  | nil => cases he
  | cons x xs ih =>
      rw [lastEntryOn_cons]
      rcases List.mem_cons.mp he with rfl | hmem
      · cases hx : lastEntryOn xs d <;> simp [Option.or, hd]
      · have hs := ih hmem
        cases hx : lastEntryOn xs d with
        | some y => simp [Option.or]
        | none => rw [hx] at hs; simp at hs

theorem lastEntryOn_mem {es : List TimeEntry} {d : Nat} {y : TimeEntry}
    (h : lastEntryOn es d = some y) : y ∈ es ∧ y.work_date = d := by
  induction es with
  | nil => simp [lastEntryOn] at h
  | cons x xs ih =>
      rw [lastEntryOn_cons] at h
      cases hx : lastEntryOn xs d with
      | some z =>
          rw [hx] at h
          simp only [Option.or] at h
          have hz : z = y := Option.some_inj.mp h
          subst hz
          obtain ⟨hz1, hz2⟩ := ih hx
          exact ⟨List.mem_cons_of_mem x hz1, hz2⟩
      | none =>
          rw [hx] at h
          simp only [Option.or] at h
          by_cases hc : x.work_date = d
          · rw [if_pos hc] at h
            have hz : x = y := Option.some_inj.mp h
            subst hz
            exact ⟨List.mem_cons_self x xs, hc⟩
          · rw [if_neg hc] at h
            exact Option.noConfusion h

theorem lastEntryOn_eq_none {es : List TimeEntry} {d : Nat}
    (h : ∀ e ∈ es, e.work_date ≠ d) : lastEntryOn es d = Option.none := by
  induction es with
  | nil => rfl
  | cons x xs ih =>
      rw [lastEntryOn_cons, ih (fun e he => h e (List.mem_cons_of_mem x he)),
        if_neg (h x (List.mem_cons_self x xs))]
      rfl

theorem lastEntryOn_filter {p : TimeEntry → Bool} {d : Nat} (es : List TimeEntry)
    (hp : ∀ e : TimeEntry, e.work_date = d → p e = true) :
    lastEntryOn (es.filter p) d = lastEntryOn es d := by
  induction es with
  | nil => rfl
  | cons x xs ih =>
      by_cases hx : p x = true
      · rw [List.filter_cons_of_pos hx, lastEntryOn_cons, lastEntryOn_cons, ih]
      · rw [List.filter_cons_of_neg (by simpa using hx), ih, lastEntryOn_cons,
          if_neg (fun hc => hx (hp x hc))]
        cases lastEntryOn xs d <;> rfl

theorem daySummaryFor_date (today : ℤ) (es : List TimeEntry) (s : UserSettings)
    (d : Nat) : (daySummaryFor today es s d).date = d := by
  unfold daySummaryFor
  cases lastEntryOn es d <;> rfl

theorem daySummaryFor_filter (today : ℤ) {p : TimeEntry → Bool} {d : Nat}
    (es : List TimeEntry) (s : UserSettings)
    (hp : ∀ e : TimeEntry, e.work_date = d → p e = true) :
    daySummaryFor today (es.filter p) s d = daySummaryFor today es s d := by
  unfold daySummaryFor
  rw [lastEntryOn_filter es hp]

/-! ## From week structure to per-date sums -/

theorem week_inMonth_balance_sum (today : ℤ) (es : List TimeEntry) (s : UserSettings)
    (ws first last : Nat) :
    ((monthInDays first last (weekly_summary today
        (es.filter fun e : TimeEntry => decide (ws ≤ e.work_date ∧ e.work_date ≤ ws + 6))
        s ws)).map (·.balance)).sum
      = ((dateList ws (ws + 6)).map fun d =>
          if first ≤ d ∧ d ≤ last
          then (daySummaryFor today es s d).balance else 0).sum := by
  unfold monthInDays weekly_summary
  simp only []
  have hdays : (List.range 7).map (fun i => daySummaryFor today
        (es.filter fun e : TimeEntry => decide (ws ≤ e.work_date ∧ e.work_date ≤ ws + 6))
        s (ws + i))
      = (List.range 7).map fun i => daySummaryFor today es s (ws + i) := by
    apply List.map_congr_left
    intro i hi
    rw [List.mem_range] at hi
    apply daySummaryFor_filter
    intro e he
    simp only [decide_eq_true_eq]
    omega
  rw [hdays, List.filter_map, List.map_map, sum_map_filter_eq]
  rw [show dateList ws (ws + 6) = List.range' ws 7 from by
    unfold dateList; congr 1; omega]
  rw [List.range'_eq_map_range, List.map_map]
  apply congrArg
  apply List.map_congr_left
  intro i hi
  simp only [Function.comp, daySummaryFor_date, decide_eq_true_eq]

theorem monthWeeksAux_balance_sum (today : ℤ) (es : List TimeEntry) (s : UserSettings)
    (first last : Nat) :
    ∀ fuel ws, last + 1 - ws ≤ fuel →
      ((monthWeeksAux today es s last fuel ws).map fun w =>
          ((monthInDays first last w).map (·.balance)).sum).sum
        = ((dateList ws last).map fun d =>
            if first ≤ d ∧ d ≤ last
            then (daySummaryFor today es s d).balance else 0).sum := by
  intro fuel
  induction fuel with
  | zero =>
      intro ws h
      rw [dateList_empty (by omega)]
      rfl
  | succ n ih =>
      intro ws h
      rw [monthWeeksAux]
      by_cases hle : ws ≤ last
      · rw [if_pos hle]
        simp only [List.map_cons, List.sum_cons]
        rw [week_inMonth_balance_sum, ih (ws + 7) (by omega)]
        by_cases hcase : ws + 6 ≤ last
        · rw [dateList_split (show ws ≤ (ws + 6) + 1 by omega) hcase,
            List.map_append, List.sum_append]
        · have hempty : dateList (ws + 7) last = [] := dateList_empty (by omega)
          rw [hempty]
          simp only [List.map_nil, List.sum_nil, add_zero]
          rw [dateList_split (show ws ≤ last + 1 by omega) (show last ≤ ws + 6 by omega),
            List.map_append, List.sum_append]
          have hz : ((dateList (last + 1) (ws + 6)).map fun d =>
              if first ≤ d ∧ d ≤ last
              then (daySummaryFor today es s d).balance else 0).sum = 0 := by
            apply List.sum_eq_zero
            intro x hx
            obtain ⟨d, hd, rfl⟩ := List.mem_map.mp hx
            rw [mem_dateList] at hd
            rw [if_neg (by omega)]
          rw [hz, add_zero]
      · rw [if_neg hle]
        rw [dateList_empty (by omega)]
        rfl

theorem one_le_daysInMonth (y m : Nat) : 1 ≤ daysInMonth y m := by
  unfold daysInMonth
  split
  all_goals first
    | omega
    | (split <;> omega)

theorem month_first_day_pos (y m : Nat) : 1 ≤ month_first_day y m := by
  unfold month_first_day toOrdinal
  omega

theorem month_first_day_le_last (y m : Nat) :
    month_first_day y m ≤ month_last_day y m := by
  unfold month_first_day month_last_day toOrdinal
  have := one_le_daysInMonth y m
  omega

/-- The raw monthly `period_balance` accumulator is exactly the sum of
the (possibly synthesized) daily balances over the days of the month. -/
theorem month_period_balance_raw_eq (today : ℤ) (es : List TimeEntry) (s : UserSettings)
    (y m : Nat) :
    month_period_balance_raw today es s y m
      = ((dateList (month_first_day y m) (month_last_day y m)).map fun d =>
          (daySummaryFor today es s d).balance).sum := by
  have h1 : 1 ≤ month_first_day y m := month_first_day_pos y m
  have h2 : month_first_day y m ≤ month_last_day y m := month_first_day_le_last y m
  have h3 : month_first_day y m - weekday (month_first_day y m) ≤ month_first_day y m :=
    Nat.sub_le _ _
  unfold month_period_balance_raw monthWeeks
  rw [monthWeeksAux_balance_sum today es s (month_first_day y m) (month_last_day y m)
    _ _ (le_refl _)]
  rw [dateList_split
      (show month_first_day y m - weekday (month_first_day y m)
        ≤ (month_first_day y m - 1) + 1 by omega)
      (show month_first_day y m - 1 ≤ month_last_day y m by omega),
    show month_first_day y m - 1 + 1 = month_first_day y m from by omega,
    List.map_append, List.sum_append]
  have hz : ((dateList (month_first_day y m - weekday (month_first_day y m))
      (month_first_day y m - 1)).map fun d =>
        if month_first_day y m ≤ d ∧ d ≤ month_last_day y m
        then (daySummaryFor today es s d).balance else 0).sum = 0 := by
    apply List.sum_eq_zero
    intro x hx
    obtain ⟨d, hd, rfl⟩ := List.mem_map.mp hx
    rw [mem_dateList] at hd
    rw [if_neg (by omega)]
  rw [hz, zero_add]
  apply congrArg
  apply List.map_congr_left
  intro d hd
  rw [mem_dateList] at hd
  rw [if_pos ⟨hd.1, hd.2⟩]

/-! ## From per-date sums to per-entry sums -/

theorem sum_lastEntry_eq_filter_sum (today : ℤ) (s : UserSettings) :
    ∀ (es : List TimeEntry) (D : List Nat), D.Nodup →
      (es.map (·.work_date)).Nodup →
      (D.map fun d =>
          match lastEntryOn es d with
          | some e => balance today e s
          | none => 0).sum
        = ((es.filter fun e : TimeEntry => decide (e.work_date ∈ D)).map
            fun e => balance today e s).sum := by
  intro es
  induction es with
  | nil =>
      intro D _ _
      simp [lastEntryOn]
  | cons x xs ih =>
      intro D hD hnd
      rw [List.map_cons, List.nodup_cons] at hnd
      have hpt : ∀ d ∈ D, (match lastEntryOn (x :: xs) d with
          | some e => balance today e s
          | none => 0)
          = (match lastEntryOn xs d with
            | some e => balance today e s
            | none => 0) + (if d = x.work_date then balance today x s else 0) := by
        intro d _
        rw [lastEntryOn_cons]
        cases hx : lastEntryOn xs d with
        | some z =>
            simp only [Option.or]
            by_cases hdx : d = x.work_date
            · exfalso
              obtain ⟨hz1, hz2⟩ := lastEntryOn_mem hx
              apply hnd.1
              rw [← hdx, ← hz2]
              exact List.mem_map_of_mem _ hz1
            · rw [if_neg hdx, add_zero]
        | none =>
            simp only [Option.or]
            by_cases hdx : d = x.work_date
            · rw [if_pos hdx.symm, if_pos hdx, zero_add]
            · rw [if_neg (fun hc => hdx hc.symm), if_neg hdx, add_zero]
      rw [List.map_congr_left hpt, List.sum_map_add, sum_map_pick hD, ih D hD hnd.2]
      by_cases hx : x.work_date ∈ D
      · rw [if_pos hx, List.filter_cons_of_pos (by simpa using hx), List.map_cons,
          List.sum_cons]
        ring
      · rw [if_neg hx, List.filter_cons_of_neg (by simpa using hx), add_zero]

/-- Under the uniqueness and coverage hypotheses, the month's daily
balances (with synthesized days) sum to the balances of the in-month
entries. -/
theorem month_sum_balances_eq (today : ℤ) (es : List TimeEntry) (s : UserSettings)
    (y m : Nat)
    (hnodup : (es.map (·.work_date)).Nodup)
    (hcover : ∀ d, month_first_day y m ≤ d → d ≤ month_last_day y m → weekday d < 5 →
      ∃ e ∈ es, e.work_date = d) :
    ((dateList (month_first_day y m) (month_last_day y m)).map fun d =>
        (daySummaryFor today es s d).balance).sum
      = ((es.filter fun e : TimeEntry => decide (month_first_day y m ≤ e.work_date
          ∧ e.work_date ≤ month_last_day y m)).map fun e => balance today e s).sum := by
  have hpt : ∀ d ∈ dateList (month_first_day y m) (month_last_day y m),
      (daySummaryFor today es s d).balance
        = match lastEntryOn es d with
          | some e => balance today e s
          | none => 0 := by
    intro d hd
    rw [mem_dateList] at hd
    unfold daySummaryFor
    cases hx : lastEntryOn es d with
    | some e => rfl
    | none =>
        simp only []
        by_cases hw : weekday d < 5
        · obtain ⟨e, he, heq⟩ := hcover d hd.1 hd.2 hw
          have hsome := lastEntryOn_isSome_of_mem he heq
          rw [hx] at hsome
          simp at hsome
        · rw [if_neg hw, sub_zero]
  rw [List.map_congr_left hpt,
    sum_lastEntry_eq_filter_sum today s es _ (dateList_nodup _ _) hnodup]
  have hiff : ∀ e ∈ es,
      (decide (e.work_date ∈ dateList (month_first_day y m) (month_last_day y m)))
        = decide (month_first_day y m ≤ e.work_date
            ∧ e.work_date ≤ month_last_day y m) := by
    intro e _
    rw [decide_eq_decide]
    exact mem_dateList
  rw [List.filter_congr hiff]

/-! ## Splitting the replay at a cutoff -/

theorem sum_filter_le_split (today : ℤ) (s : UserSettings) (lo hi : Nat)
    (h1 : 1 ≤ lo) (h2 : lo ≤ hi + 1) :
    ∀ F : List TimeEntry,
      ((F.filter fun e : TimeEntry => decide (e.work_date ≤ hi)).map
          fun e => balance today e s).sum
        = ((F.filter fun e : TimeEntry => decide (e.work_date ≤ lo - 1)).map
            fun e => balance today e s).sum
          + ((F.filter fun e : TimeEntry =>
              decide (lo ≤ e.work_date ∧ e.work_date ≤ hi)).map
              fun e => balance today e s).sum := by
  intro F
  induction F with
  | nil => simp
  | cons e F ih =>
      by_cases ha : e.work_date ≤ hi
      · by_cases hb : e.work_date ≤ lo - 1
        · rw [List.filter_cons_of_pos (by simpa using ha),
            List.filter_cons_of_pos (by simpa using hb),
            List.filter_cons_of_neg (by simp only [decide_eq_true_eq]; omega),
            List.map_cons, List.sum_cons, List.map_cons, List.sum_cons, ih]
          ring
        · rw [List.filter_cons_of_pos (by simpa using ha),
            List.filter_cons_of_neg (by simpa using hb),
            List.filter_cons_of_pos (by simp only [decide_eq_true_eq]; omega),
            List.map_cons, List.sum_cons, List.map_cons, List.sum_cons, ih]
          ring
      · rw [List.filter_cons_of_neg (by simpa using ha),
          List.filter_cons_of_neg (by simp only [decide_eq_true_eq]; omega),
          List.filter_cons_of_neg (by simp only [decide_eq_true_eq]; omega), ih]

theorem filter_month_of_tsd (es : List TimeEntry) (tsd lo hi : Nat) (h : tsd < lo) :
    ((es.filter fun e : TimeEntry => decide (tsd ≤ e.work_date)).filter
        fun e : TimeEntry => decide (lo ≤ e.work_date ∧ e.work_date ≤ hi))
      = es.filter fun e : TimeEntry => decide (lo ≤ e.work_date ∧ e.work_date ≤ hi) := by
  rw [List.filter_filter]
  apply List.filter_congr
  intro e _
  by_cases hc : lo ≤ e.work_date ∧ e.work_date ≤ hi
  · rw [decide_eq_true (show tsd ≤ e.work_date by omega), decide_eq_true hc,
      Bool.and_true]
  · rw [decide_eq_false hc, Bool.false_and]

theorem all_time_balance_eq_raw (today : ℤ) (es : List TimeEntry) (s : UserSettings)
    (c : Option Nat)
    (hoff : s.initial_hours_offset = Option.none
      ∨ ∃ off, s.initial_hours_offset = some off ∧ isCent off) :
    all_time_balance today es s c = atbRaw today es s c := by
  unfold all_time_balance
  apply quantize2_cent
  have hsum : isCent ((atbFiltered es s c).map fun e => balance today e s).sum := by
    apply isCent_sum
    intro x hx
    obtain ⟨e, _, rfl⟩ := List.mem_map.mp hx
    exact balance_isCent today e s
  unfold atbRaw
  rcases hoff with h | ⟨off, h, hc⟩ <;> rw [h]
  · exact hsum
  · exact isCent_add hsum hc

/-! ## Claim C1: the decomposition law -/

/-- C1 counterexample: with no records at all and a 32 h week, the
all-time balance is 0.00 at every cutoff, but January 2026's
period balance is −140.80 (22 synthesized weekday deficits of 6.40 each
that `all_time_balance` never sees), so the decomposition law fails. -/
theorem decomposition_counterexample :
    ¬ (all_time_balance 0 [] settings32 (some (month_last_day 2026 1))
        = all_time_balance 0 [] settings32 (some (month_last_day 2025 12))
          + (monthly_summary 0 [] settings32 2026 1).period_balance) := by
  decide!

/-- C1 amended: the decomposition
`allTimeBalance(end of month) = allTimeBalance(end of previous month) +
period_balance(month)` holds provided the records have pairwise-distinct
dates, every Mon–Fri date of the month has a record, and the tracking
epoch (if any) precedes the month; without the coverage condition the
synthesized zero-actual weekdays of the monthly summary create a deficit
that the pure replay never sees. -/
theorem decomposition_amended (today : ℤ) (entries : List TimeEntry) (s : UserSettings)
    (y m : Nat)
    (hnodup : (entries.map (·.work_date)).Nodup)
    (hcover : ∀ d, month_first_day y m ≤ d → d ≤ month_last_day y m → weekday d < 5 →
      ∃ e ∈ entries, e.work_date = d)
    (htsd : s.tracking_start_date = Option.none
      ∨ ∃ tsd, s.tracking_start_date = some tsd ∧ tsd < month_first_day y m)
    (hoff : s.initial_hours_offset = Option.none
      ∨ ∃ off, s.initial_hours_offset = some off ∧ isCent off) :
    all_time_balance today entries s (some (month_last_day y m))
      = all_time_balance today entries s (some (month_first_day y m - 1))
        + (monthly_summary today entries s y m).period_balance := by
  rw [monthly_summary_period_balance,
    quantize2_cent (month_period_balance_raw_isCent today entries s y m),
    all_time_balance_eq_raw today entries s _ hoff,
    all_time_balance_eq_raw today entries s _ hoff,
    month_period_balance_raw_eq,
    month_sum_balances_eq today entries s y m hnodup hcover]
  have hsplit := sum_filter_le_split today s (month_first_day y m) (month_last_day y m)
    (month_first_day_pos y m) (by have := month_first_day_le_last y m; omega)
  unfold atbRaw atbFiltered
  rcases htsd with h | ⟨tsd, h, hlt⟩ <;> rw [h]
  · cases hoffval : s.initial_hours_offset with
    | none => exact hsplit entries
    | some off =>
        rw [hsplit entries]
        ring
  · cases hoffval : s.initial_hours_offset with
    | none =>
        rw [hsplit (entries.filter fun e : TimeEntry => decide (tsd ≤ e.work_date)),
          filter_month_of_tsd entries tsd _ _ hlt]
    | some off =>
        rw [hsplit (entries.filter fun e : TimeEntry => decide (tsd ≤ e.work_date)),
          filter_month_of_tsd entries tsd _ _ hlt]
        ring

/-- Witness for the amended C1: February 2026 with a record on every
single day of the month. -/
theorem decomposition_amended_witness :
    all_time_balance 0 feb2026Entries settings32 (some (month_last_day 2026 2))
      = all_time_balance 0 feb2026Entries settings32 (some (month_first_day 2026 2 - 1))
        + (monthly_summary 0 feb2026Entries settings32 2026 2).period_balance :=
  decomposition_amended 0 feb2026Entries settings32 2026 2
    (by decide!)
    (fun d h1 h2 _ =>
      (by decide! : ∀ d ∈ dateList (month_first_day 2026 2) (month_last_day 2026 2),
        ∃ e ∈ feb2026Entries, e.work_date = d) d (mem_dateList.mpr ⟨h1, h2⟩))
    (Or.inl rfl) (Or.inl rfl)

end Verk
